import Mathlib

/-!
Shallow embedding of the m6lexerkit lexical-analysis toolkit (src/src/lib.rs).

Modelling conventions:
* Rust `&str` text is modelled as `Chars := List Char`; Rust byte offsets are
  modelled exactly, via the UTF-8 byte size of each scalar value (`utf8Len`).
* Rust byte slicing `&s[a..b]` panics unless `a ≤ b` and both offsets lie on
  character boundaries within the text; `byteSlice?`/`byteTake?`/`byteDrop?`
  return `none` exactly in the panicking cases.
* A Rust panic (`unwrap`, `unreachable!`, slice panic) is modelled as `none`
  (or an explicit `panic` constructor) at the function's result type.
* `Symbol`s are interned strings; interning is modelled explicitly for the
  interner claims (`Interner`, `str2sym`, `sym2str`).  Everywhere else a
  token's `name`/`value` symbol is modelled by the very string it interns,
  which is faithful because interning is an injective, lossless map from
  strings to handles (proved as theorem `str2sym_idempotent_roundtrip`).
* A compiled `Regex` used only through `is_match`, and an `FnCharMatcher`,
  are external primitives; each is modelled as the Boolean matching function
  it denotes (`Chars → Bool`, resp. `Char → Bool`).
-/

/-- Text of a Rust `str`, as its sequence of Unicode scalar values. -/
abbrev Chars := List Char

/-- Number of bytes of the UTF-8 encoding of one scalar value. -/
def utf8Len (c : Char) : Nat :=
  if c.toNat < 0x80 then 1
  else if c.toNat < 0x800 then 2
  else if c.toNat < 0x10000 then 3
  else 4

/-- Rust `str::len`: total number of UTF-8 bytes. -/
def strBytes : Chars → Nat
  | [] => 0
  | c :: cs => utf8Len c + strBytes cs

/-- Rust `&s[..n]`: the prefix holding the first `n` bytes;
`none` models the panic when `n` overruns the text or falls inside
a multi-byte character. -/
def byteTake? (s : Chars) (n : Nat) : Option Chars :=
  if n = 0 then some []
  else
    match s with
    | [] => none
    | c :: cs =>
      if utf8Len c ≤ n then (byteTake? cs (n - utf8Len c)).map (c :: ·) else none

/-- Rust `&s[n..]`: the suffix after the first `n` bytes; `none` models the
panic on an out-of-range or non-boundary offset. -/
def byteDrop? (s : Chars) (n : Nat) : Option Chars :=
  if n = 0 then some s
  else
    match s with
    | [] => none
    | c :: cs =>
      if utf8Len c ≤ n then byteDrop? cs (n - utf8Len c) else none

/-- Rust `&s[a..b]`; `none` models the slice panic. -/
def byteSlice? (s : Chars) (a b : Nat) : Option Chars :=
  if a ≤ b then (byteDrop? s a).bind (fun r => byteTake? r (b - a)) else none

/-- Span: byte-offset range `[from, end)` into the source (src/src/lib.rs `Span`). -/
structure Span where
  «from» : Nat
  «end» : Nat
deriving DecidableEq, Repr

/-- Rust `Span::len`: `end - from` (truncated subtraction on `usize`). -/
def Span.len (s : Span) : Nat := s.«end» - s.«from»

/-- Token (src/src/lib.rs `Token`): `name` and `value` are interned symbols,
modelled by the strings they intern; the value is kept as raw text. -/
structure Token where
  name : String
  value : Chars
  span : Span
deriving DecidableEq, Repr

/-- Rust `Token::rename`: replace the name, keep value and span. -/
def Token.rename (t : Token) (n : String) : Token := { t with name := n }

/-- Reasons of src/src/lib.rs `TokenizeErrorReason`. -/
inductive TokenizeErrorReason where
  | UnrecognizedToken
  | UnrecognizedEscaped (c : Char)
  | UnexpectedPostfix
  | ZeroLenToken
deriving DecidableEq, Repr

/-- src/src/lib.rs `TokenizeError`: the reason, the offending character
offset (`start`), and a copy of the source text (standing for the cloned
`SrcFileInfo`). -/
structure TokenizeError where
  reason : TokenizeErrorReason
  start : Nat
  src : Chars
deriving DecidableEq, Repr

deriving instance DecidableEq for Except

/-- Result of one matcher invocation (`Option<Result<Token, Reason>>`). -/
abbrev TokenMatchResult := Except TokenizeErrorReason Token

/-- src/src/lib.rs `FnMatcher`: a matcher gets the remaining text and the
current byte offset. -/
abbrev FnMatcher := Chars → Nat → Option TokenMatchResult

/-- The inner `for fn_matcher in fn_matchers` loop of `tokenize`: the first
matcher returning `Some` decides this position. -/
def firstMatch (ms : List FnMatcher) (rem : Chars) (pos : Nat) : Option TokenMatchResult :=
  match ms with
  | [] => none
  | m :: tail =>
    match m rem pos with
    | some r => some r
    | none => firstMatch tail rem pos

/-- The `while bytes_pos < source.len()` loop of src/src/lib.rs `tokenize`
(lines 525-565).  State: byte cursor, character cursor, accumulated tokens.
The outer `Option` is `none` exactly when the Rust code would panic
(slicing at a bad offset). -/
def tokenizeLoop (source : Chars) (ms : List FnMatcher)
    (bytes_pos chars_pos : Nat) (toks : List Token) :
    Option (Except TokenizeError (List Token)) :=
  if h : bytes_pos < strBytes source then
    match byteDrop? source bytes_pos with
    | none => none
    | some rem =>
      match firstMatch ms rem bytes_pos with
      | none => some (.error ⟨.UnrecognizedToken, chars_pos, source⟩)
      | some (.error r) => some (.error ⟨r, chars_pos, source⟩)
      | some (.ok tok) =>
        if hz : tok.span.len = 0 then
          some (.error ⟨.ZeroLenToken, chars_pos, source⟩)
        else
          match byteSlice? source tok.span.«from» tok.span.«end» with
          | none => none
          | some sl =>
            tokenizeLoop source ms (bytes_pos + tok.span.len)
              (chars_pos + sl.length) (toks ++ [tok])
  else some (.ok toks)
termination_by strBytes source - bytes_pos
decreasing_by
  omega

/-- src/src/lib.rs `tokenize` (lines 511-568). -/
def tokenize (source : Chars) (ms : List FnMatcher) :
    Option (Except TokenizeError (List Token)) :=
  if strBytes source = 0 then some (.ok [])
  else tokenizeLoop source ms 0 0 []

/-- src/src/lib.rs `FnCharMatcher`: `fn(char) -> bool`. -/
abbrev FnCharMatcher := Char → Bool

/-- src/src/lib.rs `LexDFAMap`: state ↦ ordered transition list.  The
`HashMap<Symbol, _>` is modelled as an association list keyed by the state's
interned string; states are `Symbol`s, modelled by their strings. -/
abbrev LexDFAMap := List (String × List (FnCharMatcher × (String × Bool)))

/-- src/src/lib.rs `LexDFA::forward` (lines 901-912): look the current state
up (`unwrap`), take the first transition whose predicate matches, return the
new state and the boundary flag.  `none` models both panics (a missing state
and the `unreachable!` on an uncovered character). -/
def lexdfaForward (map : LexDFAMap) (st : String) (ch : Char) :
    Option (String × Bool) :=
  match map.find? (fun p => p.1 == st) with
  | none => none
  | some p =>
    match p.2.find? (fun item => item.1 ch) with
    | none => none
    | some item => some item.2

/-- src/src/lib.rs `TokenRecognizer` (lines 970-991): a bounded lookahead
(in bytes) and an ordered `(pattern, name)` list; each compiled `Regex` is
modelled as the `is_match` function it denotes. -/
structure TokenRecognizer where
  lookhead : Nat
  pat_items : List ((Chars → Bool) × String)

/-- src/src/lib.rs `TokenRecognizer::recognize` (lines 976-990).  Note the
source text it tests is `&source[..end]` — the prefix of the WHOLE source up
to `min(span.end, span.from + lookhead)` — not a slice of the span's own
text.  `none` models the `unreachable!` when no pattern matches (and the
slice panic). -/
def recognize (r : TokenRecognizer) (source : Chars) (span : Span) :
    Option Token :=
  let e := min span.«end» (span.«from» + r.lookhead)
  match byteTake? source e with
  | none => none
  | some pre =>
    match r.pat_items.find? (fun pi => pi.1 pre) with
    | none => none
    | some pi =>
      match byteSlice? source span.«from» span.«end» with
      | none => none
      | some v => some ⟨pi.2, v, span⟩

/-- Modelled from the spec and claim C1's words (not from the source): the
recognizer classifies the span by testing the first
`min(lookahead, span length)` characters of the span's own text against each
pattern in order; the value is the verbatim span text. -/
def recognize_claimed (r : TokenRecognizer) (source : Chars) (span : Span) :
    Option Token :=
  match byteSlice? source span.«from» span.«end» with
  | none => none
  | some spantext =>
    let pre := spantext.take r.lookhead
    match r.pat_items.find? (fun pi => pi.1 pre) with
    | none => none
    | some pi => some ⟨pi.2, spantext, span⟩

/-- The `for c in srcfile.srcstr.chars()` loop of src/src/lib.rs `tokenize2`
(lines 1038-1054).  State: unprocessed characters, current DFA state,
byte offset of the accumulation buffer, the buffer (`cache`), and the
accumulated tokens.  On a boundary-flagged transition the buffer before the
current character becomes a finished span, is handed to the recognizer, and
a fresh buffer starts at the current character.  `none` models a panic
inside `forward` or `recognize`.  The Rust function's only non-panicking
outcome is `Ok(tokens)`; it constructs no error value. -/
def tokenize2Loop (map : LexDFAMap) (recog : TokenRecognizer)
    (srcstr : Chars) : Chars → String → Nat → Chars → List Token →
    Option (List Token)
  | [], _, _, _, toks => some toks
  | c :: cs, st, bytes_pos, cache, toks =>
    match lexdfaForward map st c with
    | none => none
    | some (st2, flag) =>
      if flag then
        match recognize recog srcstr ⟨bytes_pos, bytes_pos + strBytes cache⟩ with
        | none => none
        | some tok =>
          tokenize2Loop map recog srcstr cs st2
            (bytes_pos + strBytes cache) [c] (toks ++ [tok])
      else
        tokenize2Loop map recog srcstr cs st2 bytes_pos (cache ++ [c]) toks

/-- src/src/lib.rs `tokenize2` (lines 1027-1057); the DFA starts in state
`"Entry"` (`ENTRY_ST`). -/
def tokenize2 (srcstr : Chars) (map : LexDFAMap) (recog : TokenRecognizer) :
    Option (List Token) :=
  tokenize2Loop map recog srcstr srcstr "Entry" 0 [] []

/-- Outcome of `aux_strlike_m`'s scanning loop (src/src/lib.rs lines 647-674):
the loop either ends (by exhausting the input or by `break`) holding the
accumulated `val`, or returns the `UnexpectedPostfix` error. -/
inductive StrlikeEnd where
  | done (val : Chars)
  | errPostfix
deriving DecidableEq, Repr

/-- The three-mode scanning loop of src/src/lib.rs `aux_strlike_m`
(lines 647-674).  `st`: 0 normal, 1 escape, 2 tail; `piter` is what remains
of the postfix iterator after the delimiter was taken from it. -/
def strlikeLoop (escape_char delimiter : Char) :
    Chars → Nat → Chars → Chars → StrlikeEnd
  | [], _, _, val => .done val
  | c :: cs, st, piter, val =>
    if st = 0 then
      if c = escape_char then strlikeLoop escape_char delimiter cs 1 piter (val ++ [c])
      else if c = delimiter then strlikeLoop escape_char delimiter cs 2 piter (val ++ [c])
      else strlikeLoop escape_char delimiter cs 0 piter (val ++ [c])
    else if st = 1 then
      strlikeLoop escape_char delimiter cs 0 piter (val ++ [c])
    else
      match piter with
      | mat :: piter2 =>
        if c ≠ mat then .errPostfix
        else strlikeLoop escape_char delimiter cs 2 piter2 val
      | [] => .done val

/-- Result of `aux_strlike_m`: Rust `Option<Result<Token, Reason>>`, with an
extra constructor for the panic (`val.pop().unwrap()` on an empty buffer,
or `postfix_iter.next().unwrap()` on an empty postfix). -/
inductive StrlikeOut where
  | panicked
  | noMatch
  | err (r : TokenizeErrorReason)
  | tok (t : Token)
deriving DecidableEq, Repr

/-- src/src/lib.rs `aux_strlike_m` (lines 623-686).  `pfx`/`psfx` are the
Rust `prefix`/`postfix` arguments (renamed: those words are unavailable as
identifiers here).  Since the prefix was just checked to be a character
prefix of `source`, the byte slice `&source[prefix.len()..]` equals dropping
`pfx.length` characters. -/
def aux_strlike_m (source : Chars) (f : Nat) (pfx psfx : Chars)
    (escape_char : Char) : StrlikeOut :=
  if pfx.isPrefixOf source then
    match psfx with
    | [] => .panicked
    | delimiter :: postfix_rest =>
      match strlikeLoop escape_char delimiter (source.drop pfx.length)
          0 postfix_rest [] with
      | .errPostfix => .err .UnexpectedPostfix
      | .done val =>
        match val with
        | [] => .panicked
        | _ :: _ =>
          let v := val.dropLast
          let span_len := strBytes pfx + strBytes v + strBytes psfx
          .tok ⟨"__aux_tmp", v, ⟨f, f + span_len⟩⟩
  else .noMatch

/-- src/src/lib.rs `dqstr_m` (lines 690-693): delimiter `"`, escape `\`,
renaming a successful token to `dqstr`. -/
def dqstr_m (source : Chars) (f : Nat) : StrlikeOut :=
  match aux_strlike_m source f ['"'] ['"'] '\\' with
  | .tok t => .tok (t.rename "dqstr")
  | out => out

/-- The thread-local `StringInterner` (external crate `string_interner`),
modelled from the spec's §4.2 contract as the canonical append-only string
table: `get_or_intern` returns the index of the first occurrence, appending
the string if absent; `resolve` is the index lookup. -/
structure Interner where
  strs : List String
deriving DecidableEq, Repr

/-- Index of the first occurrence of `s`, if present. -/
def idxOfStr : List String → String → Option Nat
  | [], _ => none
  | x :: xs, s => if x = s then some 0 else (idxOfStr xs s).map (· + 1)

/-- `StringInterner::get_or_intern`. -/
def get_or_intern (it : Interner) (s : String) : Nat × Interner :=
  match idxOfStr it.strs s with
  | some i => (i, it)
  | none => (it.strs.length, ⟨it.strs ++ [s]⟩)

/-- src/src/lib.rs `str2sym` (lines 580-582), with the thread-local interner
state made explicit. -/
def str2sym (s : String) (it : Interner) : Nat × Interner :=
  get_or_intern it s

/-- src/src/lib.rs `sym2str` (lines 575-578); `none` models the `unwrap`
panic on a symbol the interner never created. -/
def sym2str (sym : Nat) (it : Interner) : Option String :=
  it.strs[sym]?

/-- Contiguity check on token spans: each span starts where the previous one
ended, beginning at `p`. -/
def spansChainB : Nat → List Token → Bool
  | _, [] => true
  | p, t :: ts => (t.span.«from» == p) && spansChainB t.span.«end» ts

/-- End offset of the last span (or `p` if there is none). -/
def lastEnd : Nat → List Token → Nat
  | p, [] => p
  | _, t :: ts => lastEnd t.span.«end» ts

/-- Concatenation of the source slices of the tokens' spans, in order. -/
def sliceConcat (source : Chars) (toks : List Token) : Chars :=
  (toks.map (fun t => (byteSlice? source t.span.«from» t.span.«end»).getD [])).flatten

/-- A matcher is span-faithful when every successful token's span starts at
the byte offset handed to the matcher and ends on a character boundary
within the remaining text. -/
def SpanFaithful (m : FnMatcher) : Prop :=
  ∀ rem pos tok, m rem pos = some (.ok tok) →
    ∃ pre suf, rem = pre ++ suf ∧ tok.span = ⟨pos, pos + strBytes pre⟩

/-- Character predicate for decimal digits (the scenario's `num` matcher). -/
def digitM : FnCharMatcher := Char.isDigit

/-- Character predicate for the `+` operator (the scenario's `op` matcher). -/
def plusM : FnCharMatcher := fun c => c == '+'

/-- Minimal digit+operator transition table of the §8 scenarios: from the
entry state a digit starts a number, `+` starts an operator; a state change
between the two classes flags a token boundary. -/
def dfaDigitOp : LexDFAMap :=
  [ ("Entry", [(digitM, ("Num", false)), (plusM, ("Op", false))]),
    ("Num",   [(digitM, ("Num", false)), (plusM, ("Op", true))]),
    ("Op",    [(digitM, ("Num", true)),  (plusM, ("Op", true))]) ]

/-- Recognizer for the §8 scenarios: lookahead 2; a span containing `+` is
an `OP`, otherwise a span containing a digit is a `NUM`. -/
def recogNumOp : TokenRecognizer :=
  ⟨2, [ (fun s => s.any (fun c => c == '+'), "OP"),
        (fun s => s.any Char.isDigit, "NUM") ]⟩

/-- Two-pattern recognizer exercising C1: first pattern matches text
containing `a` (name `A`), second matches text containing `b` (name `B`);
lookahead 2. -/
def recogAB : TokenRecognizer :=
  ⟨2, [ (fun s => s.any (fun c => c == 'a'), "A"),
        (fun s => s.any (fun c => c == 'b'), "B") ]⟩

/-- A matcher that always returns a token with the fixed span `[1, 2)`,
regardless of the position it was called at. -/
def stuckSpanMatcher : FnMatcher :=
  fun _ _ => some (.ok ⟨"t", ['b'], ⟨1, 2⟩⟩)

/-- A span-faithful matcher consuming exactly one character. -/
def oneCharMatcher : FnMatcher :=
  fun rem pos =>
    match rem with
    | [] => none
    | c :: _ => some (.ok ⟨"c", [c], ⟨pos, pos + utf8Len c⟩⟩)

/-- A matcher that always returns a zero-length token at the current
position. -/
def zeroLenMatcher : FnMatcher :=
  fun _ pos => some (.ok ⟨"t", [], ⟨pos, pos⟩⟩)

theorem utf8Len_pos (c : Char) : 1 ≤ utf8Len c := by
  unfold utf8Len
  split
  · omega
  split
  · omega
  split <;> omega

theorem strBytes_append (a b : Chars) :
    strBytes (a ++ b) = strBytes a + strBytes b := by
  induction a with
  | nil => simp [strBytes]
  | cons c cs ih => simp [strBytes, ih, Nat.add_assoc]

theorem strBytes_eq_zero {s : Chars} (h : strBytes s = 0) : s = [] := by
  cases s with
  | nil => rfl
  | cons c cs =>
    exfalso
    have := utf8Len_pos c
    simp [strBytes] at h
    omega

theorem byteTake?_zero (s : Chars) : byteTake? s 0 = some [] := by
  cases s <;> simp [byteTake?]

theorem byteDrop?_zero (s : Chars) : byteDrop? s 0 = some s := by
  cases s <;> simp [byteDrop?]

theorem byteTake?_append_self (p s : Chars) :
    byteTake? (p ++ s) (strBytes p) = some p := by
  induction p with
  | nil => simp [byteTake?_zero, strBytes]
  | cons c cs ih =>
    have h1 := utf8Len_pos c
    rw [List.cons_append, byteTake?]
    rw [if_neg (by simp [strBytes]; omega)]
    simp only [strBytes]
    rw [if_pos (by omega), Nat.add_sub_cancel_left, ih]
    rfl

theorem byteDrop?_append_self (p s : Chars) :
    byteDrop? (p ++ s) (strBytes p) = some s := by
  induction p with
  | nil => simp [byteDrop?_zero, strBytes]
  | cons c cs ih =>
    have h1 := utf8Len_pos c
    rw [List.cons_append, byteDrop?]
    rw [if_neg (by simp [strBytes]; omega)]
    simp only [strBytes]
    rw [if_pos (by omega), Nat.add_sub_cancel_left, ih]

theorem byteSlice?_append (P mid rest : Chars) :
    byteSlice? (P ++ mid ++ rest) (strBytes P) (strBytes P + strBytes mid) =
      some mid := by
  unfold byteSlice?
  rw [if_pos (Nat.le_add_right _ _), List.append_assoc,
    byteDrop?_append_self, Option.some_bind, Nat.add_sub_cancel_left,
    byteTake?_append_self]

theorem firstMatch_eq_some {ms : List FnMatcher} {rem : Chars} {pos : Nat}
    {r : TokenMatchResult} (h : firstMatch ms rem pos = some r) :
    ∃ m ∈ ms, m rem pos = some r := by
  induction ms with
  | nil => simp [firstMatch] at h
  | cons m tail ih =>
    rw [firstMatch] at h
    cases hm : m rem pos with
    | some r2 =>
      rw [hm] at h
      refine ⟨m, List.mem_cons_self _ _, ?_⟩
      rw [hm]
      exact h
    | none =>
      rw [hm] at h
      obtain ⟨m2, hmem, hm2⟩ := ih h
      exact ⟨m2, List.mem_cons_of_mem _ hmem, hm2⟩

theorem recognize_span {r : TokenRecognizer} {source : Chars} {sp : Span}
    {tok : Token} (h : recognize r source sp = some tok) : tok.span = sp := by
  simp only [recognize] at h
  repeat' split at h
  all_goals simp_all
  exact h.symm ▸ rfl

theorem spansChainB_snoc {p : Nat} {toks : List Token} {t : Token}
    (h : spansChainB p toks = true) (he : t.span.«from» = lastEnd p toks) :
    spansChainB p (toks ++ [t]) = true := by
  induction toks generalizing p with
  | nil =>
    simp [lastEnd] at he
    simp [spansChainB, he]
  | cons hd tl ih =>
    simp only [spansChainB, Bool.and_eq_true, beq_iff_eq] at h
    simp only [lastEnd] at he
    simp only [List.cons_append, spansChainB, Bool.and_eq_true, beq_iff_eq]
    exact ⟨h.1, ih h.2 he⟩

theorem lastEnd_snoc (p : Nat) (toks : List Token) (t : Token) :
    lastEnd p (toks ++ [t]) = t.span.«end» := by
  induction toks generalizing p with
  | nil => simp [lastEnd]
  | cons hd tl ih => simp [lastEnd, ih]

theorem sliceConcat_nil (source : Chars) : sliceConcat source [] = [] := rfl

theorem sliceConcat_cons (source : Chars) (t : Token) (ts : List Token) :
    sliceConcat source (t :: ts) =
      (byteSlice? source t.span.«from» t.span.«end»).getD [] ++
        sliceConcat source ts := by
  simp [sliceConcat]

theorem sliceConcat_snoc (source : Chars) (ts : List Token) (t : Token) :
    sliceConcat source (ts ++ [t]) =
      sliceConcat source ts ++
        (byteSlice? source t.span.«from» t.span.«end»).getD [] := by
  simp [sliceConcat]

theorem idxOfStr_get {l : List String} {s : String} {i : Nat}
    (h : idxOfStr l s = some i) : l[i]? = some s := by
  induction l generalizing i with
  | nil => simp [idxOfStr] at h
  | cons x xs ih =>
    rw [idxOfStr] at h
    by_cases hx : x = s
    · rw [if_pos hx] at h
      simp only [Option.some.injEq] at h
      subst h
      simp [hx]
    · rw [if_neg hx] at h
      cases hj : idxOfStr xs s with
      | none => rw [hj] at h; exact absurd h (by simp)
      | some j =>
        rw [hj] at h
        simp only [Option.map_some', Option.some.injEq] at h
        subst h
        simpa using ih hj

theorem idxOfStr_append_of_none {l : List String} {s : String}
    (h : idxOfStr l s = none) : idxOfStr (l ++ [s]) s = some l.length := by
  induction l with
  | nil => simp [idxOfStr]
  | cons x xs ih =>
    rw [idxOfStr] at h
    by_cases hx : x = s
    · rw [if_pos hx] at h; exact absurd h (by simp)
    · rw [if_neg hx] at h
      have hxs : idxOfStr xs s = none := by
        cases hj : idxOfStr xs s with
        | none => rfl
        | some j => rw [hj] at h; exact absurd h (by simp)
      rw [List.cons_append, idxOfStr, if_neg hx, ih hxs]
      simp

theorem tokenize2Loop_inv (map : LexDFAMap) (recog : TokenRecognizer)
    (srcstr : Chars) :
    ∀ (cs : Chars) (st : String) (cache : Chars) (toks0 : List Token)
      (P : Chars) (out : List Token),
      srcstr = P ++ cache ++ cs →
      spansChainB 0 toks0 = true →
      lastEnd 0 toks0 = strBytes P →
      sliceConcat srcstr toks0 = P →
      tokenize2Loop map recog srcstr cs st (strBytes P) cache toks0 = some out →
      ∃ Q R, srcstr = Q ++ R ∧ spansChainB 0 out = true ∧
        lastEnd 0 out = strBytes Q ∧ sliceConcat srcstr out = Q := by
  intro cs
  induction cs with
  | nil =>
    intro st cache toks0 P out hsrc hchain hle hsc h
    simp only [tokenize2Loop, Option.some.injEq] at h
    subst h
    exact ⟨P, cache, by simpa using hsrc, hchain, hle, hsc⟩
  | cons c cs2 ih =>
    intro st cache toks0 P out hsrc hchain hle hsc h
    simp only [tokenize2Loop] at h
    cases hfw : lexdfaForward map st c with
    | none => rw [hfw] at h; exact absurd h (by simp)
    | some stflag =>
      rw [hfw] at h
      obtain ⟨st2, flag⟩ := stflag
      cases flag with
      | false =>
        simp only [Bool.false_eq_true, if_false] at h
        exact ih st2 (cache ++ [c]) toks0 P out
          (by rw [hsrc]; simp) hchain hle hsc h
      | true =>
        simp only [if_true] at h
        cases hr : recognize recog srcstr ⟨strBytes P, strBytes P + strBytes cache⟩ with
        | none => rw [hr] at h; exact absurd h (by simp)
        | some tok =>
          rw [hr] at h
          have hspan : tok.span = ⟨strBytes P, strBytes P + strBytes cache⟩ :=
            recognize_span hr
          have hslice :
              byteSlice? srcstr tok.span.«from» tok.span.«end» = some cache := by
            rw [hspan, hsrc]
            exact byteSlice?_append P cache (c :: cs2)
          refine ih st2 [c] (toks0 ++ [tok]) (P ++ cache) out ?_ ?_ ?_ ?_ ?_
          · rw [hsrc]; simp
          · exact spansChainB_snoc hchain (by rw [hspan, hle])
          · rw [lastEnd_snoc, hspan, strBytes_append]
          · rw [sliceConcat_snoc, hsc, hslice]; rfl
          · rw [strBytes_append]; exact h

/-- C9: for every input on which `tokenize2` returns, the returned tokens'
spans are contiguous from byte offset 0 and the concatenation of their
source slices is exactly the byte prefix of the source up to the last
span's end (never more): characters still in the buffer when the character
loop ends — including any text after the last boundary-flagged transition —
are discarded and never emitted. -/
theorem tokenize2_prefix_inv (srcstr : Chars) (map : LexDFAMap)
    (recog : TokenRecognizer) (out : List Token)
    (h : tokenize2 srcstr map recog = some out) :
    spansChainB 0 out = true ∧
      byteTake? srcstr (lastEnd 0 out) = some (sliceConcat srcstr out) ∧
      lastEnd 0 out ≤ strBytes srcstr := by
  obtain ⟨Q, R, hsrc, hchain, hle, hsc⟩ :=
    tokenize2Loop_inv map recog srcstr srcstr "Entry" [] [] [] out
      (by simp) rfl rfl rfl h
  refine ⟨hchain, ?_, ?_⟩
  · rw [hle, hsc, hsrc, byteTake?_append_self]
  · rw [hle, hsrc, strBytes_append]; omega

theorem tokenizeLoop_inv (ms : List FnMatcher)
    (hf : ∀ m ∈ ms, SpanFaithful m) (srcstr : Chars) :
    ∀ (n : Nat) (rem : Chars), rem.length ≤ n →
    ∀ (P : Chars) (cpos : Nat) (toks0 out : List Token),
      srcstr = P ++ rem →
      tokenizeLoop srcstr ms (strBytes P) cpos toks0 = some (.ok out) →
      ∃ suffix, out = toks0 ++ suffix ∧
        spansChainB (strBytes P) suffix = true ∧
        lastEnd (strBytes P) suffix = strBytes srcstr ∧
        sliceConcat srcstr suffix = rem := by
  intro n
  induction n with
  | zero =>
    intro rem hlen P cpos toks0 out hsrc h
    have hnil : rem = [] := List.length_eq_zero.mp (Nat.le_zero.mp hlen)
    subst hnil
    rw [List.append_nil] at hsrc
    subst hsrc
    rw [tokenizeLoop, dif_neg (by omega)] at h
    simp only [Option.some.injEq, Except.ok.injEq] at h
    subst h
    exact ⟨[], by simp, rfl, rfl, rfl⟩
  | succ n ih =>
    intro rem hlen P cpos toks0 out hsrc h
    cases rem with
    | nil =>
      rw [List.append_nil] at hsrc
      subst hsrc
      rw [tokenizeLoop, dif_neg (by omega)] at h
      simp only [Option.some.injEq, Except.ok.injEq] at h
      subst h
      exact ⟨[], by simp, rfl, rfl, rfl⟩
    | cons c rcs =>
      have hlt : strBytes P < strBytes srcstr := by
        rw [hsrc, strBytes_append]
        have := utf8Len_pos c
        simp only [strBytes]
        omega
      rw [tokenizeLoop, dif_pos hlt] at h
      have hdrop : byteDrop? srcstr (strBytes P) = some (c :: rcs) :=
        hsrc ▸ byteDrop?_append_self P (c :: rcs)
      simp only [hdrop] at h
      split at h
      · exact absurd h (by simp)
      · exact absurd h (by simp)
      · rename_i tok hm
        obtain ⟨m, hmem, hmr⟩ := firstMatch_eq_some hm
        obtain ⟨pre, suf, hrem, hspan⟩ := hf m hmem _ _ _ hmr
        have hlen0 : tok.span.len = strBytes pre := by
          rw [hspan]; simp [Span.len]
        by_cases hz : tok.span.len = 0
        · rw [dif_pos hz] at h; exact absurd h (by simp)
        · rw [dif_neg hz] at h
          have hpre0 : strBytes pre ≠ 0 := by rw [← hlen0]; exact hz
          have hslice :
              byteSlice? srcstr tok.span.«from» tok.span.«end» = some pre := by
            rw [hspan]
            show byteSlice? srcstr (strBytes P) (strBytes P + strBytes pre)
              = some pre
            rw [hsrc, hrem, ← List.append_assoc]
            exact byteSlice?_append P pre suf
          simp only [hslice] at h
          have hpos : strBytes P + tok.span.len = strBytes (P ++ pre) := by
            rw [hlen0, strBytes_append]
          rw [hpos] at h
          have hsuf : suf.length ≤ n := by
            have h1 : (c :: rcs).length = pre.length + suf.length := by
              rw [hrem, List.length_append]
            have h2 : pre ≠ [] := fun hn => hpre0 (by simp [hn, strBytes])
            have h3 : 1 ≤ pre.length := by
              cases pre with
              | nil => exact absurd rfl h2
              | cons _ _ => simp
            simp only [List.length_cons] at h1 hlen
            omega
          obtain ⟨suffix2, hout, hch2, hle2, hsc2⟩ :=
            ih suf hsuf (P ++ pre) (cpos + pre.length) (toks0 ++ [tok]) out
              (by rw [hsrc, hrem, List.append_assoc]) h
          refine ⟨tok :: suffix2, ?_, ?_, ?_, ?_⟩
          · rw [hout, List.append_assoc]; rfl
          · simp only [spansChainB, Bool.and_eq_true, beq_iff_eq]
            refine ⟨by rw [hspan], ?_⟩
            rw [hspan]
            show spansChainB (strBytes P + strBytes pre) suffix2 = true
            rw [← strBytes_append]
            exact hch2
          · simp only [lastEnd]
            rw [hspan]
            show lastEnd (strBytes P + strBytes pre) suffix2 = strBytes srcstr
            rw [← strBytes_append]
            exact hle2
          · rw [sliceConcat_cons, hslice, hsc2, hrem]
            rfl

/-- C5 amended: for every source and every list of span-faithful matchers
(each successful token's span starts at the offset handed to the matcher
and ends on a character boundary within the remaining text — the
counterexample shows the claim is false without this restriction), when
`tokenize` returns `Ok(tokens)` the spans are contiguous from byte 0,
exhaustive up to the source's byte length, and concatenating the source
slices of the spans reproduces the source exactly. -/
theorem tokenize_roundtrip (srcstr : Chars) (ms : List FnMatcher)
    (out : List Token) (hf : ∀ m ∈ ms, SpanFaithful m)
    (h : tokenize srcstr ms = some (.ok out)) :
    spansChainB 0 out = true ∧ lastEnd 0 out = strBytes srcstr ∧
      sliceConcat srcstr out = srcstr := by
  unfold tokenize at h
  by_cases h0 : strBytes srcstr = 0
  · rw [if_pos h0] at h
    simp only [Option.some.injEq, Except.ok.injEq] at h
    subst h
    have hnil := strBytes_eq_zero h0
    subst hnil
    exact ⟨rfl, h0.symm, rfl⟩
  · rw [if_neg h0] at h
    obtain ⟨suffix, hout, hch, hle, hsc⟩ :=
      tokenizeLoop_inv ms hf srcstr srcstr.length srcstr (le_refl _)
        [] 0 [] out (by simp) h
    rw [hout, List.nil_append]
    exact ⟨hch, hle, hsc⟩

/-- C1: refuted as stated; the code is the slip.  `recognize` tests
`&source[..min(span.end, span.from + lookhead)]` — a prefix of the WHOLE
source that includes all text before the span — instead of a prefix of the
span's own text.  At source `"ab"`, span `[1, 2)`, lookahead 2, patterns
`[contains a ↦ A, contains b ↦ B]` in that order: the code tests `"ab"` and
names the span `A`, while classifying by the span's own text `"b"` (the
claim's and the spec's reading, `recognize_claimed`) names it `B`.  The
token's value is the verbatim span text in both. -/
theorem recognize_tests_whole_source_prefix :
    recognize recogAB ['a', 'b'] ⟨1, 2⟩ = some ⟨"A", ['b'], ⟨1, 2⟩⟩ ∧
      recognize_claimed recogAB ['a', 'b'] ⟨1, 2⟩ =
        some ⟨"B", ['b'], ⟨1, 2⟩⟩ ∧
      ("A" : String) ≠ "B" := by
  refine ⟨by decide, by decide, by decide⟩

/-- C2 counterexample: on `12+34` the DFA engine does NOT return the three
tokens `[NUM "12", OP "+", NUM "34"]` the claim demands — the trailing `34`
is never emitted. -/
theorem tokenize2_scenario_not_three_tokens :
    tokenize2 ['1', '2', '+', '3', '4'] dfaDigitOp recogNumOp ≠
      some [⟨"NUM", ['1', '2'], ⟨0, 2⟩⟩, ⟨"OP", ['+'], ⟨2, 3⟩⟩,
        ⟨"NUM", ['3', '4'], ⟨3, 5⟩⟩] := by
  decide

/-- C2 amended: on `12+34` the DFA engine returns exactly
`[NUM "12", OP "+"]`; the trailing `34` stays in the accumulation buffer
when the character loop ends and is discarded. -/
theorem tokenize2_scenario_two_tokens :
    tokenize2 ['1', '2', '+', '3', '4'] dfaDigitOp recogNumOp =
      some [⟨"NUM", ['1', '2'], ⟨0, 2⟩⟩, ⟨"OP", ['+'], ⟨2, 3⟩⟩] := by
  decide

/-- C3 counterexample: on `3?` with the minimal digit+operator table the
engine returns nothing at all — the run ends in the `unreachable!` panic of
`LexDFA::forward` (modelled as `none`), not in any returned value; in
particular not in the recoverable `UnrecognizedToken` error the claim
demands (`tokenize2` has no error-constructing path at all). -/
theorem tokenize2_unrecognized_returns_nothing :
    tokenize2 ['3', '?'] dfaDigitOp recogNumOp = none := by
  decide

/-- C3 amended: scanning `3?`, the character `?` is uncovered in the digit
state, so `LexDFA::forward` hits its `unreachable!` — a fatal configuration
fault (panic), not a recoverable tokenization error. -/
theorem tokenize2_uncovered_char_panics :
    lexdfaForward dfaDigitOp "Num" '?' = none ∧
      (tokenize2 ['3', '?'] dfaDigitOp recogNumOp).isSome = false := by
  refine ⟨by decide, by decide⟩

/-- C4 counterexample: on the 7-byte input `"ab\"c"` the quoted-string
matcher does not produce the claimed token (value `ab"c` with the escape
character removed, span `[0, 8)`): the escape backslash is kept in the
value, and the whole input is only 7 bytes. -/
theorem dqstr_scenario_not_as_claimed :
    dqstr_m ['"', 'a', 'b', '\\', '"', 'c', '"'] 0 ≠
      .tok ⟨"dqstr", ['a', 'b', '"', 'c'], ⟨0, 8⟩⟩ ∧
    dqstr_m ['"', 'a', 'b', '\\', '"', 'c', '"'] 0 ≠
      .tok ⟨"dqstr", ['a', 'b', '"', 'c'], ⟨0, 7⟩⟩ := by
  refine ⟨by decide, by decide⟩

/-- C4 amended: on the 7-byte input `"ab\"c"` the matcher yields one token
of category `dqstr` whose value is `ab\"c` — the escape character is kept,
only the delimiters are stripped — with span `[0, 7)` covering the whole
input. -/
theorem dqstr_scenario_actual :
    dqstr_m ['"', 'a', 'b', '\\', '"', 'c', '"'] 0 =
      .tok ⟨"dqstr", ['a', 'b', '\\', '"', 'c'], ⟨0, 7⟩⟩ := by
  decide

/-- C5 counterexample: `tokenize` never checks that a matcher's span starts
at the position handed to it; a matcher always answering with the fixed
span `[1, 2)` makes `tokenize` succeed on `ab` with tokens whose spans are
neither contiguous from 0 nor concatenate back to the source. -/
theorem tokenize_roundtrip_fails_unfaithful_matcher :
    tokenize ['a', 'b'] [stuckSpanMatcher] =
        some (.ok [⟨"t", ['b'], ⟨1, 2⟩⟩, ⟨"t", ['b'], ⟨1, 2⟩⟩]) ∧
      ¬(spansChainB 0 [⟨"t", ['b'], ⟨1, 2⟩⟩, ⟨"t", ['b'], ⟨1, 2⟩⟩] = true ∧
        lastEnd 0 [⟨"t", ['b'], ⟨1, 2⟩⟩, ⟨"t", ['b'], ⟨1, 2⟩⟩] =
          strBytes ['a', 'b'] ∧
        sliceConcat ['a', 'b'] [⟨"t", ['b'], ⟨1, 2⟩⟩, ⟨"t", ['b'], ⟨1, 2⟩⟩] =
          ['a', 'b']) := by
  constructor
  · simp [tokenize, tokenizeLoop, stuckSpanMatcher, firstMatch, byteDrop?,
      byteTake?, byteSlice?, Span.len, strBytes, utf8Len]
  · decide

/-- C6: whenever the first matcher to answer at the current position returns
a successful token whose span has zero byte length, `tokenize`'s loop aborts
right there with a `ZeroLenToken` error at the current character offset —
at every position of the scan. -/
theorem tokenize_zero_len_aborts (source : Chars) (ms : List FnMatcher)
    (pos cpos : Nat) (toks : List Token) (rem : Chars) (tok : Token)
    (h1 : pos < strBytes source)
    (h2 : byteDrop? source pos = some rem)
    (h3 : firstMatch ms rem pos = some (.ok tok))
    (h4 : tok.span.len = 0) :
    tokenizeLoop source ms pos cpos toks =
      some (.error ⟨.ZeroLenToken, cpos, source⟩) := by
  rw [tokenizeLoop, dif_pos h1]
  simp only [h2, h3]
  split
  · rfl
  · exact absurd h4 (by assumption)

theorem tokenize_zero_len_aborts_witness :
    (0 < strBytes ['a'] ∧
      byteDrop? ['a'] 0 = some ['a'] ∧
      firstMatch [zeroLenMatcher] ['a'] 0 = some (.ok ⟨"t", [], ⟨0, 0⟩⟩)) ∧
    tokenizeLoop ['a'] [zeroLenMatcher] 0 0 [] =
      some (.error ⟨.ZeroLenToken, 0, ['a']⟩) :=
  ⟨⟨by decide, by decide, by decide⟩,
    tokenize_zero_len_aborts ['a'] [zeroLenMatcher] 0 0 [] ['a']
      ⟨"t", [], ⟨0, 0⟩⟩ (by decide) (by decide) (by decide) (by decide)⟩

/-- C7: for every matcher list, tokenizing the empty source returns an
empty token sequence, never an error. -/
theorem tokenize_empty_source (ms : List FnMatcher) :
    tokenize [] ms = some (.ok []) := rfl

/-- C8: within one interner scope, interning is idempotent and faithful —
interning the same string twice yields the identical symbol (and leaves the
interner unchanged), and resolving the symbol yields the string back. -/
theorem str2sym_idempotent_roundtrip (it : Interner) (s : String) :
    (str2sym s (str2sym s it).2).1 = (str2sym s it).1 ∧
      (str2sym s (str2sym s it).2).2 = (str2sym s it).2 ∧
      sym2str (str2sym s it).1 (str2sym s it).2 = some s := by
  unfold str2sym sym2str get_or_intern
  cases hi : idxOfStr it.strs s with
  | some i =>
    simp only [hi]
    exact ⟨by trivial, by trivial, idxOfStr_get hi⟩
  | none =>
    simp only [hi, idxOfStr_append_of_none hi]
    refine ⟨by trivial, by trivial, ?_⟩
    simp

theorem tokenize_roundtrip_witness :
    (∀ m ∈ [oneCharMatcher], SpanFaithful m) ∧
    (spansChainB 0 [⟨"c", ['a'], ⟨0, 1⟩⟩, ⟨"c", ['b'], ⟨1, 2⟩⟩] = true ∧
      lastEnd 0 [⟨"c", ['a'], ⟨0, 1⟩⟩, ⟨"c", ['b'], ⟨1, 2⟩⟩] =
        strBytes ['a', 'b'] ∧
      sliceConcat ['a', 'b'] [⟨"c", ['a'], ⟨0, 1⟩⟩, ⟨"c", ['b'], ⟨1, 2⟩⟩] =
        ['a', 'b']) := by
  have hf : ∀ m ∈ [oneCharMatcher], SpanFaithful m := by
    intro m hm
    simp only [List.mem_singleton] at hm
    subst hm
    intro rem pos tok h
    cases rem with
    | nil => simp [oneCharMatcher] at h
    | cons c cs =>
      simp only [oneCharMatcher, Option.some.injEq, Except.ok.injEq] at h
      subst h
      exact ⟨[c], cs, rfl, by simp [strBytes]⟩
  refine ⟨hf, tokenize_roundtrip ['a', 'b'] [oneCharMatcher] _ hf ?_⟩
  simp [tokenize, tokenizeLoop, oneCharMatcher, firstMatch, byteDrop?,
    byteTake?, byteSlice?, Span.len, strBytes, utf8Len]

theorem tokenize2_prefix_inv_witness :
    tokenize2 ['1', '2', '+', '3', '4'] dfaDigitOp recogNumOp =
        some [⟨"NUM", ['1', '2'], ⟨0, 2⟩⟩, ⟨"OP", ['+'], ⟨2, 3⟩⟩] ∧
      (spansChainB 0 [⟨"NUM", ['1', '2'], ⟨0, 2⟩⟩, ⟨"OP", ['+'], ⟨2, 3⟩⟩] = true ∧
        byteTake? ['1', '2', '+', '3', '4']
            (lastEnd 0 [⟨"NUM", ['1', '2'], ⟨0, 2⟩⟩, ⟨"OP", ['+'], ⟨2, 3⟩⟩]) =
          some (sliceConcat ['1', '2', '+', '3', '4']
            [⟨"NUM", ['1', '2'], ⟨0, 2⟩⟩, ⟨"OP", ['+'], ⟨2, 3⟩⟩]) ∧
        lastEnd 0 [⟨"NUM", ['1', '2'], ⟨0, 2⟩⟩, ⟨"OP", ['+'], ⟨2, 3⟩⟩] ≤
          strBytes ['1', '2', '+', '3', '4']) :=
  ⟨by decide,
    tokenize2_prefix_inv ['1', '2', '+', '3', '4'] dfaDigitOp recogNumOp
      [⟨"NUM", ['1', '2'], ⟨0, 2⟩⟩, ⟨"OP", ['+'], ⟨2, 3⟩⟩] (by decide)⟩

theorem isPrefixOf_self (l : Chars) : l.isPrefixOf l = true := by
  induction l with
  | nil => rfl
  | cons c cs ih => simp [List.isPrefixOf, ih]

/-- C10: if the source handed to `aux_strlike_m` consists of exactly the
opening prefix with nothing after it, the function panics — the `unwrap`
of `val.pop()` on the empty value buffer — instead of returning `None` or
a tokenization error.  Instantiated at `dqstr_m` on a lone `"` by the
witness. -/
theorem aux_strlike_lone_prefix_panics (source pfx psfx : Chars) (f : Nat)
    (escape_char : Char) (hsrc : source = pfx) (hp : psfx ≠ []) :
    aux_strlike_m source f pfx psfx escape_char = .panicked := by
  subst hsrc
  unfold aux_strlike_m
  rw [if_pos (isPrefixOf_self _)]
  cases psfx with
  | nil => exact absurd rfl hp
  | cons d rest =>
    rw [List.drop_length]
    rfl

theorem aux_strlike_lone_prefix_panics_witness :
    ((['"'] : Chars) = ['"'] ∧ (['"'] : Chars) ≠ []) ∧
      aux_strlike_m ['"'] 0 ['"'] ['"'] '\\' = .panicked ∧
      dqstr_m ['"'] 0 = .panicked :=
  ⟨⟨rfl, by decide⟩,
    aux_strlike_lone_prefix_panics ['"'] ['"'] ['"'] 0 '\\' rfl (by decide),
    by decide⟩

